import Mathlib

/-!
Shallow embedding of `src/apputil.py` (class `Genius`): a small client for a
music-metadata REST API.  HTTP is modelled by an abstract deterministic
environment `Env : Req → HttpResp` mapping each request the code can issue to
an HTTP response (status code, parsed JSON body, raw text).  Python values
flowing through the code are modelled by the JSON value type `JVal`; Python
exceptions by `PyErr` through `Except`.  Functions are translated line by
line from the source; request-issuing is made observable where a claim is
about which requests are sent (`get_artistT`, the pagination loops).
-/

namespace Apputil

/-- JSON values (the shape of everything `r.json()` returns and of every
field extracted from it).  Numbers are integers: the fields the code touches
(`id`, `followers_count`) are integral in the API. -/
inductive JVal where
  | null : JVal
  | bool : Bool → JVal
  | num : Int → JVal
  | str : String → JVal
  | arr : List JVal → JVal
  | obj : List (String × JVal) → JVal

/-- Python truthiness of a JSON value (`if not x`, `x or y`). -/
def truthy : JVal → Bool
  | .null => false
  | .bool b => b
  | .num n => n != 0
  | .str s => s != ""
  | .arr l => !l.isEmpty
  | .obj l => !l.isEmpty

/-- Python `a or b`: `b` when `a` is falsy, else `a`. -/
def pyOr (a b : JVal) : JVal := if truthy a then a else b

/-- Python exceptions raised by the translated code. -/
inductive PyErr where
  | httpError (url : String) (status : Nat) (text : String)
  | valueError (msg : String)
  | attributeError
  | typeError
  | indexError

/-- `str(e)` for an exception, as it lands in the `_error` column of the
parallel path.  Only the `HTTPError` message is spelled out by the source
(`f-string` in `Genius._get`); the others are placeholders for the interpreter
generated messages, which the code never inspects. -/
def errStr : PyErr → String
  | .httpError url status text =>
      "GET " ++ url ++ " failed with status=" ++ toString status ++ ": " ++ text
  | .valueError msg => msg
  | .attributeError => "AttributeError"
  | .typeError => "TypeError"
  | .indexError => "IndexError"

/-- Whether an exception is the transport error of `Genius._get`
(`requests.HTTPError` on a non-200 response). -/
def PyErr.isHttp : PyErr → Bool
  | .httpError _ _ _ => true
  | _ => false

/-- `d.get(key, default)`.  On a non-dict Python raises `AttributeError`
(no `.get`); duplicate keys do not arise from parsed JSON. -/
def jgetD : JVal → String → JVal → Except PyErr JVal
  | .obj fs, k, d => .ok ((fs.lookup k).getD d)
  | _, _, _ => .error .attributeError

/-- `d.get(key)` (default `None`). -/
def jget (v : JVal) (k : String) : Except PyErr JVal := jgetD v k JVal.null

/-- `l[i]` on what the code expects to be a list.  Python raises a
(`TypeError`/`KeyError`/`IndexError`-shaped) exception on any non-list or
out-of-range index; the exception's identity is never inspected by the code. -/
def jindex : JVal → Nat → Except PyErr JVal
  | .arr l, i =>
      match l.get? i with
      | some v => .ok v
      | none => .error .indexError
  | _, _ => .error .typeError

/-- `str(v)` as used in `f"/artists/{artist_id}"`. Containers get a
repr-style rendering (never exercised: ids reaching the URL are scalars). -/
def pyStr : JVal → String
  | .null => "None"
  | .bool b => if b then "True" else "False"
  | .num n => toString n
  | .str s => s
  | .arr _ => "[...]"
  | .obj _ => "{...}"

/-- The two kinds of request `Genius` issues: `/search` (with optional
`page`/`per_page` parameters) and `/artists/<id>`. -/
inductive Req where
  | search (q : String) (pageParams : Option (Nat × Nat))
  | artistDetail (idStr : String)

def BASE_URL : String := "https://api.genius.com"

/-- The `url` variable of `Genius._get` (path interpolated onto the base;
query parameters are passed separately by `requests`). -/
def urlOf : Req → String
  | .search _ _ => BASE_URL ++ "/search"
  | .artistDetail idStr => BASE_URL ++ "/artists/" ++ idStr

/-- An HTTP response: status code, parsed JSON body and raw text. -/
structure HttpResp where
  status : Nat
  body : JVal
  text : String

/-- The abstract network: a deterministic mapping from requests to
responses (the fake-API fixture of the testable properties). -/
def Env : Type := Req → HttpResp

/-- `Genius._get`: perform the request; on a non-200 status raise
`requests.HTTPError` carrying the url, status and the first 200 characters
of the body text, else return the parsed JSON. -/
def pyGet (env : Env) (req : Req) : Except PyErr JVal :=
  let r := env req
  if r.status ≠ 200 then
    .error (.httpError (urlOf req) r.status (r.text.take 200))
  else
    .ok r.body

/-- `Genius._response_field`: `(data.get("response") or \x7b\x7d).get(key, default)`. -/
def response_field (data : JVal) (key : String) (default : JVal) : Except PyErr JVal := do
  let r ← jget data "response"
  jgetD (pyOr r (JVal.obj [])) key default

/-- Lines 74–85 of `get_artist`: search, take the first hit, extract
`result.primary_artist.id`.  `none` covers both early returns of the empty
dict (no hits / falsy id); `some idv` means the detail fetch will be issued. -/
def resolveId (env : Env) (q : String) : Except PyErr (Option JVal) :=
  match pyGet env (Req.search q none) with
  | .error e => .error e
  | .ok search =>
      match response_field search "hits" (JVal.arr []) with
      | .error e => .error e
      | .ok hits₀ =>
          let hits := pyOr hits₀ (JVal.arr [])
          if truthy hits = false then .ok none
          else
            match jindex hits 0 with
            | .error e => .error e
            | .ok h₀ =>
                match jget h₀ "result" with
                | .error e => .error e
                | .ok firstr =>
                    match jget (pyOr firstr (JVal.obj [])) "primary_artist" with
                    | .error e => .error e
                    | .ok primary₀ =>
                        match jget (pyOr primary₀ (JVal.obj [])) "id" with
                        | .error e => .error e
                        | .ok idv =>
                            if truthy idv = false then .ok none
                            else .ok (some idv)

/-- `Genius.get_artist`, with the list of requests it issues made
observable (first component).  The value component is exactly the Python
function's outcome: `ValueError` on a blank query, then search → first hit →
`primary_artist.id` → detail fetch, returning `\x7b\x7d` when there are no hits or
the id is falsy, and `data["response"]["artist"]` (or `\x7b\x7d`) otherwise. -/
def get_artistT (env : Env) (q : String) : List Req × Except PyErr JVal :=
  if q = "" then
    ([], .error (.valueError "search_term must be a non-empty string"))
  else
    match resolveId env q with
    | .error e => ([Req.search q none], .error e)
    | .ok none => ([Req.search q none], .ok (JVal.obj []))
    | .ok (some idv) =>
        let req₂ := Req.artistDetail (pyStr idv)
        match pyGet env req₂ with
        | .error e => ([Req.search q none, req₂], .error e)
        | .ok aj =>
            match response_field aj "artist" (JVal.obj []) with
            | .error e => ([Req.search q none, req₂], .error e)
            | .ok a => ([Req.search q none, req₂], .ok (pyOr a (JVal.obj [])))

/-- `Genius.get_artist` (value only). -/
def get_artist (env : Env) (q : String) : Except PyErr JVal :=
  (get_artistT env q).2

/-- One row of the result table.  `err` is the `_error` column, present
(`some`) only on the parallel path's failure rows. -/
structure Row where
  search_term : String
  artist_name : JVal
  artist_id : JVal
  followers_count : JVal
  err : Option String

/-- The loop body of `Genius.get_artists`: resolve one term and build its
row (`artist.get("name") / .get("id") / .get("followers_count")`). -/
def rowFor (env : Env) (term : String) : Except PyErr Row := do
  let artist ← get_artist env term
  let n ← jget artist "name"
  let i ← jget artist "id"
  let f ← jget artist "followers_count"
  pure ⟨term, n, i, f, none⟩

/-- `Genius.get_artists`: sequentially resolve each term, appending a row
per term; any exception aborts the whole loop (the `time.sleep(0.1)` between
calls has no observable effect here). -/
def get_artists (env : Env) : List String → Except PyErr (List Row)
  | [] => .ok []
  | t :: ts => do
      let r ← rowFor env t
      let rest ← get_artists env ts
      pure (r :: rest)

/-- Python `str.strip()` on the character list (leading and trailing
whitespace removed). -/
def stripChars (cs : List Char) : List Char :=
  ((cs.dropWhile Char.isWhitespace).reverse.dropWhile Char.isWhitespace).reverse

/-- Python `str(t).strip()` as used by `get_artists_mp`. -/
def strip (s : String) : String := String.mk (stripChars s.data)

/-- The list comprehension of `get_artists_mp`:
`[str(t).strip() for t in search_terms if str(t).strip()]`. -/
def submittedTerms (search_terms : List String) : List String :=
  (search_terms.map strip).filter (fun s => s != "")

/-- Module-level worker `_mp_fetch_one`.  The `Genius(access_token=token, ...)`
construction inside the `try` cannot fail, because the token it receives is
the parent instance's validated (non-empty) token; the worker's client is the
same abstract environment.  Any exception inside the `try` (the resolution or
the field extraction) is converted to a null row tagged with `str(e)`. -/
def mp_fetch_one (env : Env) (term : String) : Row :=
  match (do
    let artist ← get_artist env term
    let n ← jget artist "name"
    let i ← jget artist "id"
    let f ← jget artist "followers_count"
    pure ⟨term, n, i, f, none⟩ : Except PyErr Row) with
  | .ok r => r
  | .error e => ⟨term, JVal.null, JVal.null, JVal.null, some (errStr e)⟩

/-- `Genius.get_artists_mp`.  `arrival` is the completion order of the
futures (`as_completed` yields them in an order the pool does not fix): a
list of indices into the submitted-term list, a permutation of
`range terms.length` for any actual run.  `_mp_fetch_one` never raises (it
catches every exception), so the worker-failure branch of the collection
loop is dead and every result dict is nonempty, hence truthy and appended. -/
def get_artists_mp (env : Env) (search_terms : List String) (arrival : List Nat) : List Row :=
  let terms := submittedTerms search_terms
  if terms.isEmpty then []
  else
    let futures := terms.map (fun t => mp_fetch_one env t)
    arrival.filterMap (fun i => futures.get? i)

/-- Whether one term's resolution (the work `_mp_fetch_one` wraps in its
`try`, equally the loop body of `get_artists`) succeeds. -/
def rowOk (env : Env) (t : String) : Bool :=
  match rowFor env t with
  | .ok _ => true
  | .error _ => false

/-- `names[name] = None` on the deduplicating ordered dict, preceded by the
`if name:` truthiness test on the stripped name. -/
def insertName (names : List String) (s : String) : List String :=
  if s = "" then names
  else if s ∈ names then names
  else names ++ [s]

/-- Per-hit extraction in `collect_artist_names`:
`((h.get("result") or \x7b\x7d).get("primary_artist") or \x7b\x7d)`, then
`(primary.get("name") or "").strip()`.  A truthy non-string name makes
`.strip()` raise. -/
def hitName (h : JVal) : Except PyErr String := do
  let r ← jget h "result"
  let p₀ ← jget (pyOr r (JVal.obj [])) "primary_artist"
  let n ← jget (pyOr p₀ (JVal.obj [])) "name"
  match pyOr n (JVal.str "") with
  | .str s => pure (String.mk (stripChars s.data))
  | _ => .error .attributeError

/-- The `for h in hits` loop: names are inserted one hit at a time into the
(mutable) dict, so an exception part-way leaves the earlier hits' names in
place; the returned flag records whether the loop raised. -/
def processHits : List JVal → List String → List String × Bool
  | [], names => (names, false)
  | h :: hs, names =>
      match hitName h with
      | .error _ => (names, true)
      | .ok s => processHits hs (insertName names s)

/-- Outcome of the `try` block for one page: an exception was swallowed
(carrying the names accumulated before it), the page had no hits (`break`),
or the page was fully processed. -/
inductive PageOutcome where
  | errored (names : List String)
  | noHits
  | done (names : List String)

/-- The body of the page loop of `collect_artist_names` for one page:
fetch, extract `hits`, `break` on a falsy hits value, else iterate the hits.
A truthy non-list `hits` value raises on iteration/attribute access before
any name is added. -/
def pageBody (env : Env) (seed : String) (page perPage : Nat)
    (names : List String) : PageOutcome :=
  match pyGet env (Req.search seed (some (page, perPage))) with
  | .error _ => .errored names
  | .ok data =>
      match response_field data "hits" (JVal.arr []) with
      | .error _ => .errored names
      | .ok hits₀ =>
          let hits := pyOr hits₀ (JVal.arr [])
          if truthy hits = false then .noHits
          else
            match hits with
            | .arr l =>
                match processHits l names with
                | (ns, true) => .errored ns
                | (ns, false) => .done ns
            | _ => .errored names

/-- `for page in range(1, max_pages + 1)` with its requests made
observable: `fuel` is the number of remaining iterations, `page` the current
page number.  `continue` on a swallowed exception, `break` on no hits. -/
def pageLoopT (env : Env) (seed : String) (perPage : Nat) :
    Nat → Nat → List String → List Req × List String
  | 0, _, names => ([], names)
  | fuel + 1, page, names =>
      let req := Req.search seed (some (page, perPage))
      match pageBody env seed page perPage names with
      | .noHits => ([req], names)
      | .errored ns =>
          let r := pageLoopT env seed perPage fuel (page + 1) ns
          (req :: r.1, r.2)
      | .done ns =>
          let r := pageLoopT env seed perPage fuel (page + 1) ns
          (req :: r.1, r.2)

/-- `for seed in seeds` with the early `break` once the distinct-name count
has reached `target`, with the issued requests made observable. -/
def seedLoopT (env : Env) (target perPage maxPages : Nat) :
    List String → List String → List Req × List String
  | [], names => ([], names)
  | s :: rest, names =>
      let r₁ := pageLoopT env s perPage maxPages 1 names
      if target ≤ r₁.2.length then r₁
      else
        let r₂ := seedLoopT env target perPage maxPages rest r₁.2
        (r₁.1 ++ r₂.1, r₂.2)

/-- Code-point lexicographic comparison of character lists (Python's string
comparison, the order used by `sorted`). -/
def lexLe : List Char → List Char → Bool
  | [], _ => true
  | _ :: _, [] => false
  | a :: as, b :: bs =>
      if a < b then true
      else if b < a then false
      else lexLe as bs

/-- Python's `s1 <= s2` on strings. -/
def strLe (a b : String) : Bool := lexLe a.data b.data

/-- Insert into a sorted list (the comparison model of Python `sorted`). -/
def sortedInsert (x : String) : List String → List String
  | [] => [x]
  | y :: ys => if strLe x y then x :: y :: ys else y :: sortedInsert x ys

/-- Python `sorted` on a list of strings (ascending code-point
lexicographic order). -/
def pySorted : List String → List String
  | [] => []
  | x :: xs => sortedInsert x (pySorted xs)

/-- `Genius.collect_artist_names` (the optional `out_txt` side effect is
`save_list`, modelled separately): run the seed loop from the empty dict and
return `sorted(names.keys())`. -/
def collect_artist_names (env : Env) (seeds : List String)
    (target perPage maxPages : Nat) : List String :=
  pySorted (seedLoopT env target perPage maxPages seeds []).2

/-- The default seed list `list("abcdefghijklmnopqrstuvwxyz")`. -/
def defaultSeeds : List String :=
  ("abcdefghijklmnopqrstuvwxyz".data).map (fun c => String.mk [c])

/-- `Genius.save_list`: write each item followed by a newline. -/
def save_list : List String → String
  | [] => ""
  | x :: xs => x ++ "\n" ++ save_list xs

/-- Split a character stream at newline characters (the reader of a
newline-delimited text artifact). -/
def splitNl : List Char → List (List Char)
  | [] => [[]]
  | c :: rest =>
      if c = '\n' then [] :: splitNl rest
      else
        match splitNl rest with
        | [] => [[c]]
        | g :: gs => (c :: g) :: gs

/-- Read a newline-delimited text artifact back into its lines (the final
newline terminates the last item rather than opening a new one). -/
def read_lines (s : String) : List String :=
  ((splitNl s.data).map (fun cs => String.mk cs)).dropLast

/-- Whether a CSV field must be quoted (contains the delimiter, the quote
character or a line-break character) — `csv.QUOTE_MINIMAL`, the behavior of
`DataFrame.to_csv`. -/
def csvNeedsQuote (s : String) : Bool :=
  s.data.any (fun c => c == ',' || c == '"' || c == '\n' || c == '\r')

/-- Double every quote character of a quoted field's body. -/
def csvEscape : List Char → List Char
  | [] => []
  | c :: rest =>
      if c = '"' then '"' :: '"' :: csvEscape rest
      else c :: csvEscape rest

/-- Render one CSV field (`QUOTE_MINIMAL`). -/
def csvField (s : String) : String :=
  if csvNeedsQuote s then String.mk ('"' :: (csvEscape s.data ++ ['"'])) else s

/-- Render one CSV record: fields joined by commas. -/
def csvLine : List String → String
  | [] => ""
  | [c] => csvField c
  | c :: cs => csvField c ++ "," ++ csvLine cs

/-- `Genius.save_df` = `df.to_csv(path, index=False)`: a header record
followed by one record per row, each terminated by a newline. -/
def save_df (header : List String) (rows : List (List String)) : String :=
  save_list (csvLine header :: rows.map csvLine)

/-- CSV reader state: outside quotes, inside quotes, just after a quote
inside a quoted field. -/
inductive CsvSt where
  | raw : CsvSt
  | inq : CsvSt
  | postq : CsvSt

/-- Quote-aware CSV record parser (one record; fields separated by commas,
quoted fields may contain commas, doubled quotes decode to one quote). -/
def parseCsvAux : List Char → CsvSt → List Char → List (List Char) → List (List Char)
  | [], _, acc, out => (acc.reverse :: out).reverse
  | c :: rest, .raw, acc, out =>
      if c = ',' then parseCsvAux rest .raw [] (acc.reverse :: out)
      else if c = '"' then parseCsvAux rest .inq acc out
      else parseCsvAux rest .raw (c :: acc) out
  | c :: rest, .inq, acc, out =>
      if c = '"' then parseCsvAux rest .postq acc out
      else parseCsvAux rest .inq (c :: acc) out
  | c :: rest, .postq, acc, out =>
      if c = '"' then parseCsvAux rest .inq ('"' :: acc) out
      else if c = ',' then parseCsvAux rest .raw [] (acc.reverse :: out)
      else parseCsvAux rest .raw (c :: acc) out

/-- Parse one CSV record into its fields. -/
def parseCsvLine (s : String) : List String :=
  (parseCsvAux s.data .raw [] []).map (fun cs => String.mk cs)

/-- Read a delimited text artifact back: header record and data records. -/
def read_df (s : String) : Option (List String × List (List String)) :=
  match read_lines s with
  | [] => none
  | h :: rs => some (parseCsvLine h, rs.map parseCsvLine)

/-- A cell/name that survives a line-based reader: it contains no newline
character. -/
def okCell (s : String) : Prop := ('\n' : Char) ∉ s.data

instance (s : String) : Decidable (okCell s) := by
  unfold okCell
  infer_instance

/-! ### Concrete test fixtures (environments used to instantiate the
theorems on explicit inputs) -/

/-- A search hit whose `result.primary_artist` has the given name and id. -/
def hitOf (nm : String) (idv : JVal) : JVal :=
  JVal.obj [("result", JVal.obj [("primary_artist",
    JVal.obj [("name", JVal.str nm), ("id", idv)])])]

/-- A search-response body with the given hits. -/
def searchBody (hits : List JVal) : JVal :=
  JVal.obj [("response", JVal.obj [("hits", JVal.arr hits)])]

/-- An artist-detail response body. -/
def artistBody (nm : String) (idn fc : Int) : JVal :=
  JVal.obj [("response", JVal.obj [("artist",
    JVal.obj [("name", JVal.str nm), ("id", JVal.num idn),
      ("followers_count", JVal.num fc)])])]

/-- Fixture: every search produces no hits. -/
def envEmpty : Env := fun _ =>
  { status := 200, body := searchBody [], text := "" }

/-- Fixture: every request fails with HTTP 500. -/
def envErr : Env := fun _ =>
  { status := 500, body := JVal.null, text := "boom" }

/-- Fixture: every search resolves to artist `X` (id 7, 3 followers). -/
def envDetail : Env := fun r =>
  match r with
  | Req.search _ _ => { status := 200, body := searchBody [hitOf "X" (JVal.num 7)], text := "" }
  | Req.artistDetail _ => { status := 200, body := artistBody "X" 7 3, text := "" }

/-- Fixture: every search's first hit carries the integer id `0`; the
detail endpoint would fail if it were ever consulted. -/
def envZeroId : Env := fun r =>
  match r with
  | Req.search _ _ => { status := 200, body := searchBody [hitOf "Z" (JVal.num 0)], text := "" }
  | Req.artistDetail _ => { status := 500, body := JVal.null, text := "boom" }

/-- Fixture: searches for `"bad"` fail with HTTP 500; every other search
resolves like `envDetail`. -/
def envMixed : Env := fun r =>
  match r with
  | Req.search "bad" _ => { status := 500, body := JVal.null, text := "boom" }
  | Req.search _ _ => { status := 200, body := searchBody [hitOf "X" (JVal.num 7)], text := "" }
  | Req.artistDetail _ => { status := 200, body := artistBody "X" 7 3, text := "" }

/-- Fixture: page 1 of any seed yields one hit (artist `A`); later pages
are empty. -/
def envOnePage : Env := fun r =>
  match r with
  | Req.search _ (some (1, _)) =>
      { status := 200, body := searchBody [hitOf "A" (JVal.num 1)], text := "" }
  | _ => { status := 200, body := searchBody [], text := "" }

/-- A malformed hit: its primary artist's `name` is the (truthy) number 5,
so `.strip()` raises on it. -/
def badHit : JVal :=
  JVal.obj [("result", JVal.obj [("primary_artist", JVal.obj [("name", JVal.num 5)])])]

/-- Fixture: page 1 of any seed yields a good hit (`G`) followed by the
malformed `badHit`; later pages are empty. -/
def envBadPage : Env := fun r =>
  match r with
  | Req.search _ (some (1, _)) =>
      { status := 200, body := searchBody [hitOf "G" (JVal.num 1), badHit], text := "" }
  | _ => { status := 200, body := searchBody [], text := "" }

/-- Fixture: page 1 of any seed fails with HTTP 500; page 2 yields artist
`A`; later pages are empty. -/
def envErrPage1 : Env := fun r =>
  match r with
  | Req.search _ (some (1, _)) => { status := 500, body := JVal.null, text := "boom" }
  | Req.search _ (some (2, _)) =>
      { status := 200, body := searchBody [hitOf "A" (JVal.num 1)], text := "" }
  | _ => { status := 200, body := searchBody [], text := "" }

end Apputil

/-! ## Theorems -/

namespace Apputil

theorem bind_ok_iff {ε α β : Type} (x : Except ε α) (f : α → Except ε β) (b : β) :
    (x >>= f) = .ok b ↔ ∃ a, x = .ok a ∧ f a = .ok b := by
  cases x <;> simp [Bind.bind, Except.bind]

theorem bind_error_of_error {ε α β : Type} (x : Except ε α) (f : α → Except ε β) (e : ε)
    (h : x = .error e) : (x >>= f) = .error e := by
  subst h; rfl

theorem jget_empty (k : String) : jget (JVal.obj []) k = .ok JVal.null := rfl

/-- Every successful row of the sequential path carries its input term and
no `_error` field. -/
theorem rowFor_ok_fields (env : Env) (q : String) (r : Row)
    (h : rowFor env q = .ok r) : r.search_term = q ∧ r.err = none := by
  unfold rowFor at h
  rw [bind_ok_iff] at h
  obtain ⟨artist, -, h⟩ := h
  rw [bind_ok_iff] at h
  obtain ⟨n, -, h⟩ := h
  rw [bind_ok_iff] at h
  obtain ⟨i, -, h⟩ := h
  rw [bind_ok_iff] at h
  obtain ⟨f, -, h⟩ := h
  simp only [pure, Except.pure, Except.ok.injEq] at h
  subst h
  exact ⟨rfl, rfl⟩

/-- When resolution misses (empty artist record), the generated row is the
input term with three null fields. -/
theorem rowFor_empty_artist (env : Env) (q : String)
    (h : get_artist env q = .ok (JVal.obj [])) :
    rowFor env q = .ok ⟨q, JVal.null, JVal.null, JVal.null, none⟩ := by
  unfold rowFor
  rw [h]
  rfl

/-- Structure of a successful sequential batch: one row per input term, in
input order, each produced by the per-term resolution. -/
theorem get_artists_spec (env : Env) : ∀ (terms : List String) (rows : List Row),
    get_artists env terms = .ok rows →
    rows.length = terms.length ∧
      ∀ i q, terms.get? i = some q →
        ∃ r, rows.get? i = some r ∧ rowFor env q = .ok r := by
  intro terms
  induction terms with
  | nil =>
      intro rows h
      simp only [get_artists, Except.ok.injEq] at h
      subst h
      simp
  | cons t ts ih =>
      intro rows h
      simp only [get_artists] at h
      rw [bind_ok_iff] at h
      obtain ⟨r, hr, h⟩ := h
      rw [bind_ok_iff] at h
      obtain ⟨rest, hrest, h⟩ := h
      simp only [pure, Except.pure, Except.ok.injEq] at h
      subst h
      obtain ⟨hlen, hspec⟩ := ih rest hrest
      refine ⟨by simp [hlen], ?_⟩
      intro i q hq
      cases i with
      | zero =>
          simp only [List.get?] at hq ⊢
          cases hq
          exact ⟨r, rfl, hr⟩
      | succ n =>
          simp only [List.get?] at hq ⊢
          exact hspec n q hq

/-- C2: for every list of query strings on which no call raises a transport
error (formally: on which the sequential batch returns a value at all),
`get_artists` returns one row per input term, in input order; each row is
the per-term resolution's row, carrying the input term, and its three data
fields are null when the term did not resolve (empty artist record). -/
theorem get_artists_row_per_term (env : Env) (terms : List String) (rows : List Row)
    (h : get_artists env terms = .ok rows) :
    rows.length = terms.length ∧
      ∀ i q, terms.get? i = some q →
        ∃ r, rows.get? i = some r ∧
          r.search_term = q ∧ r.err = none ∧
          rowFor env q = .ok r ∧
          (get_artist env q = .ok (JVal.obj []) →
            r.artist_name = JVal.null ∧ r.artist_id = JVal.null ∧
              r.followers_count = JVal.null) := by
  obtain ⟨hlen, hspec⟩ := get_artists_spec env terms rows h
  refine ⟨hlen, ?_⟩
  intro i q hq
  obtain ⟨r, hri, hr⟩ := hspec i q hq
  obtain ⟨hterm, herr⟩ := rowFor_ok_fields env q r hr
  refine ⟨r, hri, hterm, herr, hr, ?_⟩
  intro hempty
  rw [rowFor_empty_artist env q hempty] at hr
  cases hr
  exact ⟨rfl, rfl, rfl⟩

theorem get_artists_row_per_term_witness :
    ([⟨"x", JVal.str "X", JVal.num 7, JVal.num 3, none⟩] : List Row).length = ["x"].length ∧
      ∀ i q, (["x"] : List String).get? i = some q →
        ∃ r, ([⟨"x", JVal.str "X", JVal.num 7, JVal.num 3, none⟩] : List Row).get? i = some r ∧
          r.search_term = q ∧ r.err = none ∧
          rowFor envDetail q = .ok r ∧
          (get_artist envDetail q = .ok (JVal.obj []) →
            r.artist_name = JVal.null ∧ r.artist_id = JVal.null ∧
              r.followers_count = JVal.null) :=
  get_artists_row_per_term envDetail ["x"]
    [⟨"x", JVal.str "X", JVal.num 7, JVal.num 3, none⟩] (by rfl)

theorem truthy_of_jindex_ok (v : JVal) (x : JVal)
    (h : jindex v 0 = .ok x) : truthy v = true := by
  cases v with
  | null => exact absurd h (by simp [jindex])
  | bool b => exact absurd h (by simp [jindex])
  | num n => exact absurd h (by simp [jindex])
  | str s => exact absurd h (by simp [jindex])
  | obj l => exact absurd h (by simp [jindex])
  | arr l =>
      cases l with
      | nil => exact absurd h (by simp [jindex])
      | cons a as => rfl

/-- The pre-detail phase returns `none` (→ empty record) when the hits
list is falsy. -/
theorem resolveId_none_of_nohits (env : Env) (q : String) (b h : JVal)
    (hb : pyGet env (Req.search q none) = .ok b)
    (hh : response_field b "hits" (JVal.arr []) = .ok h)
    (hfalsy : truthy (pyOr h (JVal.arr [])) = false) :
    resolveId env q = .ok none := by
  unfold resolveId
  simp only [hb, hh, hfalsy, if_true]

/-- The pre-detail phase returns `none` when the first hit's
`result.primary_artist.id` extracts to a falsy value. -/
theorem resolveId_none_of_falsy_id (env : Env) (q : String) (b h h₀ r p idv : JVal)
    (hb : pyGet env (Req.search q none) = .ok b)
    (hh : response_field b "hits" (JVal.arr []) = .ok h)
    (hi : jindex (pyOr h (JVal.arr [])) 0 = .ok h₀)
    (hr : jget h₀ "result" = .ok r)
    (hp : jget (pyOr r (JVal.obj [])) "primary_artist" = .ok p)
    (hid : jget (pyOr p (JVal.obj [])) "id" = .ok idv)
    (hfalsy : truthy idv = false) :
    resolveId env q = .ok none := by
  have htruthy := truthy_of_jindex_ok _ _ hi
  unfold resolveId
  simp only [hb, hh, htruthy, hi, hr, hp, hid, hfalsy, Bool.true_eq_false,
    if_false, if_true, ite_false, ite_true]

/-- When the pre-detail phase returns `none`, `get_artist` returns the
empty record after issuing only the search request. -/
theorem get_artistT_of_resolveId_none (env : Env) (q : String)
    (hq : q ≠ "") (h : resolveId env q = .ok none) :
    get_artistT env q = ([Req.search q none], .ok (JVal.obj [])) := by
  unfold get_artistT
  rw [if_neg hq, h]

/-- C1: for every query on which the search endpoint returns no hits, or
returns a first hit with no resolvable (falsy) primary-artist identifier,
`get_artist` returns the empty record rather than an error; and in the
no-hits case the corresponding batch row of `get_artists` carries the term
with null `artist_name`, `artist_id` and `followers_count`.  The response
shapes are those of the wire protocol (hits are objects, as are the
`result`/`primary_artist` fields reached through the `or`-defaults). -/
theorem get_artist_empty_on_miss (env : Env) (q : String) (b h : JVal)
    (hq : q ≠ "")
    (hb : pyGet env (Req.search q none) = .ok b)
    (hh : response_field b "hits" (JVal.arr []) = .ok h) :
    (truthy (pyOr h (JVal.arr [])) = false →
      get_artist env q = .ok (JVal.obj []) ∧
        ∀ terms rows i, get_artists env terms = .ok rows →
          terms.get? i = some q →
          rows.get? i = some ⟨q, JVal.null, JVal.null, JVal.null, none⟩)
    ∧ (∀ h₀ r p idv,
        jindex (pyOr h (JVal.arr [])) 0 = .ok h₀ →
        jget h₀ "result" = .ok r →
        jget (pyOr r (JVal.obj [])) "primary_artist" = .ok p →
        jget (pyOr p (JVal.obj [])) "id" = .ok idv →
        truthy idv = false →
        get_artist env q = .ok (JVal.obj [])) := by
  constructor
  · intro hfalsy
    have hres := resolveId_none_of_nohits env q b h hb hh hfalsy
    have hart : get_artist env q = .ok (JVal.obj []) := by
      unfold get_artist
      rw [get_artistT_of_resolveId_none env q hq hres]
    refine ⟨hart, ?_⟩
    intro terms rows i hrows hterm
    obtain ⟨-, hspec⟩ := get_artists_spec env terms rows hrows
    obtain ⟨r, hri, hr⟩ := hspec i q hterm
    rw [rowFor_empty_artist env q hart] at hr
    cases hr
    exact hri
  · intro h₀ r p idv hi hr hp hid hfalsy
    have hres := resolveId_none_of_falsy_id env q b h h₀ r p idv hb hh hi hr hp hid hfalsy
    unfold get_artist
    rw [get_artistT_of_resolveId_none env q hq hres]

theorem get_artist_empty_on_miss_witness :
    get_artist envEmpty "x" = .ok (JVal.obj []) ∧
      get_artist envZeroId "y" = .ok (JVal.obj []) := by
  constructor
  · exact ((get_artist_empty_on_miss envEmpty "x" (searchBody []) (JVal.arr [])
      (by simp) (by rfl) (by rfl)).1 (by rfl)).1
  · exact (get_artist_empty_on_miss envZeroId "y" (searchBody [hitOf "Z" (JVal.num 0)])
      (JVal.arr [hitOf "Z" (JVal.num 0)]) (by simp) (by rfl) (by rfl)).2
      (hitOf "Z" (JVal.num 0))
      (JVal.obj [("primary_artist", JVal.obj [("name", JVal.str "Z"), ("id", JVal.num 0)])])
      (JVal.obj [("name", JVal.str "Z"), ("id", JVal.num 0)])
      (JVal.num 0) (by rfl) (by rfl) (by rfl) (by rfl) (by rfl)

/-- C10: a first hit whose primary-artist id extracts to any falsy value —
the integer 0 as much as null or an empty value — makes `get_artist` return
the empty record after issuing only the search request: the id is tested
for truthiness, so id 0 is indistinguishable from a missing identifier. -/
theorem get_artist_falsy_id_no_detail_request (env : Env) (q : String) (b h h₀ r p idv : JVal)
    (hq : q ≠ "")
    (hb : pyGet env (Req.search q none) = .ok b)
    (hh : response_field b "hits" (JVal.arr []) = .ok h)
    (hi : jindex (pyOr h (JVal.arr [])) 0 = .ok h₀)
    (hr : jget h₀ "result" = .ok r)
    (hp : jget (pyOr r (JVal.obj [])) "primary_artist" = .ok p)
    (hid : jget (pyOr p (JVal.obj [])) "id" = .ok idv)
    (hfalsy : truthy idv = false) :
    get_artistT env q = ([Req.search q none], .ok (JVal.obj [])) :=
  get_artistT_of_resolveId_none env q hq
    (resolveId_none_of_falsy_id env q b h h₀ r p idv hb hh hi hr hp hid hfalsy)

theorem get_artist_falsy_id_no_detail_request_witness :
    get_artistT envZeroId "x" = ([Req.search "x" none], .ok (JVal.obj [])) :=
  get_artist_falsy_id_no_detail_request envZeroId "x"
    (searchBody [hitOf "Z" (JVal.num 0)]) (JVal.arr [hitOf "Z" (JVal.num 0)])
    (hitOf "Z" (JVal.num 0))
    (JVal.obj [("primary_artist", JVal.obj [("name", JVal.str "Z"), ("id", JVal.num 0)])])
    (JVal.obj [("name", JVal.str "Z"), ("id", JVal.num 0)])
    (JVal.num 0) (by simp) (by rfl) (by rfl) (by rfl) (by rfl) (by rfl) (by rfl) (by rfl)

/-- C4: if the resolution of some term raises a transport error (and the
terms before it resolve), the sequential batch propagates exactly that
error and returns no table at all. -/
theorem get_artists_aborts_on_error (env : Env) :
    ∀ (terms : List String) (i : Nat) (q : String) (e : PyErr),
    terms.get? i = some q →
    rowFor env q = .error e →
    PyErr.isHttp e = true →
    (∀ j p, j < i → terms.get? j = some p → ∃ r, rowFor env p = .ok r) →
    get_artists env terms = .error e ∧ ∀ rows, get_artists env terms ≠ .ok rows := by
  intro terms
  induction terms with
  | nil => intro i q e hq; simp [List.get?] at hq
  | cons t ts ih =>
      intro i q e hq herr _htrans hearlier
      cases i with
      | zero =>
          simp only [List.get?, Option.some.injEq] at hq
          subst hq
          have : get_artists env (t :: ts) = .error e := by
            simp only [get_artists]
            exact bind_error_of_error _ _ _ herr
          exact ⟨this, by rw [this]; simp⟩
      | succ n =>
          obtain ⟨r, hr⟩ := hearlier 0 t (Nat.succ_pos n) rfl
          have hrest := ih n q e hq herr _htrans
            (fun j p hj hjp => hearlier (j + 1) p (Nat.succ_lt_succ hj) hjp)
          have : get_artists env (t :: ts) = .error e := by
            simp only [get_artists]
            rw [hr]
            simp only [Bind.bind, Except.bind]
            exact bind_error_of_error _ _ _ hrest.1
          exact ⟨this, by rw [this]; simp⟩

set_option maxRecDepth 10000 in
theorem get_artists_aborts_on_error_witness :
    get_artists envErr ["x"] =
        .error (PyErr.httpError (BASE_URL ++ "/search") 500 "boom") ∧
      ∀ rows, get_artists envErr ["x"] ≠ .ok rows := by
  refine get_artists_aborts_on_error envErr ["x"] 0 "x"
    (PyErr.httpError (BASE_URL ++ "/search") 500 "boom") rfl ?_ rfl ?_
  · rfl
  · intro j p hj _
    exact absurd hj (Nat.not_lt_zero j)

theorem filterMap_get?_range {α : Type} : ∀ (xs : List α),
    (List.range xs.length).filterMap xs.get? = xs := by
  intro xs
  induction xs with
  | nil => rfl
  | cons x xs ih =>
      rw [List.length_cons, List.range_succ_eq_map]
      rw [List.filterMap_cons]
      simp only [List.get?]
      rw [List.filterMap_map]
      have : (fun i => (x :: xs).get? (Nat.succ i)) = xs.get? := by
        funext i
        rfl
      rw [show ((x :: xs).get? ∘ Nat.succ) = xs.get? from this]
      rw [ih]

/-- Collecting the futures in any completion order yields a permutation of
the per-term worker results. -/
theorem get_artists_mp_perm (env : Env) (search_terms : List String) (arrival : List Nat)
    (harr : arrival.Perm (List.range (submittedTerms search_terms).length)) :
    (get_artists_mp env search_terms arrival).Perm
      ((submittedTerms search_terms).map (mp_fetch_one env)) := by
  unfold get_artists_mp
  by_cases hemp : (submittedTerms search_terms).isEmpty
  · rw [if_pos hemp]
    rw [List.isEmpty_iff] at hemp
    rw [hemp]
    rfl
  · rw [if_neg hemp]
    have h₁ := List.Perm.filterMap
      (fun i => ((submittedTerms search_terms).map (mp_fetch_one env)).get? i) harr
    have h₂ : (List.range (submittedTerms search_terms).length).filterMap
        (fun i => ((submittedTerms search_terms).map (mp_fetch_one env)).get? i)
        = (submittedTerms search_terms).map (mp_fetch_one env) := by
      have hlen : (submittedTerms search_terms).length
          = ((submittedTerms search_terms).map (mp_fetch_one env)).length := by
        rw [List.length_map]
      rw [hlen]
      exact filterMap_get?_range _
    rw [h₂] at h₁
    exact h₁

theorem mp_fetch_one_eq (env : Env) (t : String) :
    mp_fetch_one env t =
      match rowFor env t with
      | .ok r => r
      | .error e => ⟨t, JVal.null, JVal.null, JVal.null, some (errStr e)⟩ := rfl

theorem mp_fetch_one_ok (env : Env) (t : String) (r : Row)
    (h : rowFor env t = .ok r) : mp_fetch_one env t = r := by
  rw [mp_fetch_one_eq, h]

theorem mp_fetch_one_error (env : Env) (t : String) (e : PyErr)
    (h : rowFor env t = .error e) :
    mp_fetch_one env t = ⟨t, JVal.null, JVal.null, JVal.null, some (errStr e)⟩ := by
  rw [mp_fetch_one_eq, h]

/-- C5: the parallel resolver discards blank/whitespace-only input entries
(every submitted term is non-blank, and the output has exactly one row per
non-blank entry); a term whose resolution fails contributes a null row with
a populated error field instead of aborting, and every other term's row is
still produced (the output is a permutation of the per-term results). -/
theorem get_artists_mp_isolates_failures (env : Env) (search_terms : List String)
    (arrival : List Nat)
    (harr : arrival.Perm (List.range (submittedTerms search_terms).length)) :
    (get_artists_mp env search_terms arrival).Perm
        ((submittedTerms search_terms).map (mp_fetch_one env))
    ∧ (∀ t, t ∈ submittedTerms search_terms → t ≠ "")
    ∧ (get_artists_mp env search_terms arrival).length
        = (search_terms.filter (fun s => strip s != "")).length
    ∧ (∀ t e, rowFor env t = .error e →
        mp_fetch_one env t = ⟨t, JVal.null, JVal.null, JVal.null, some (errStr e)⟩)
    ∧ (∀ t r, rowFor env t = .ok r → mp_fetch_one env t = r) := by
  have hperm := get_artists_mp_perm env search_terms arrival harr
  refine ⟨hperm, ?_, ?_, ?_, ?_⟩
  · intro t ht
    unfold submittedTerms at ht
    rw [List.mem_filter] at ht
    intro hcontra
    rw [hcontra] at ht
    simp at ht
  · rw [hperm.length_eq, List.length_map]
    unfold submittedTerms
    rw [List.filter_map]
    rw [List.length_map]
    rfl
  · exact fun t e h => mp_fetch_one_error env t e h
  · exact fun t r h => mp_fetch_one_ok env t r h

theorem get_artists_mp_isolates_failures_witness :
    (get_artists_mp envMixed ["good", " ", "bad"] [1, 0]).Perm
        ((submittedTerms ["good", " ", "bad"]).map (mp_fetch_one envMixed))
    ∧ (∀ t, t ∈ submittedTerms ["good", " ", "bad"] → t ≠ "")
    ∧ (get_artists_mp envMixed ["good", " ", "bad"] [1, 0]).length
        = (["good", " ", "bad"].filter (fun s => strip s != "")).length
    ∧ (∀ t e, rowFor envMixed t = .error e →
        mp_fetch_one envMixed t = ⟨t, JVal.null, JVal.null, JVal.null, some (errStr e)⟩)
    ∧ (∀ t r, rowFor envMixed t = .ok r → mp_fetch_one envMixed t = r) :=
  get_artists_mp_isolates_failures envMixed ["good", " ", "bad"] [1, 0] (by decide)

theorem submittedTerms_eq_self : ∀ (ts : List String),
    (∀ t, t ∈ ts → strip t = t ∧ t ≠ "") → submittedTerms ts = ts := by
  intro ts
  induction ts with
  | nil => intro _; rfl
  | cons t ts ih =>
      intro h
      obtain ⟨hstrip, hne⟩ := h t (List.mem_cons_self t ts)
      unfold submittedTerms at ih ⊢
      rw [List.map_cons, hstrip, List.filter_cons]
      have : (t != "") = true := by
        cases hbe : t == "" with
        | true => exact absurd (by exact eq_of_beq hbe) hne
        | false => simp [bne, hbe]
      rw [this]
      simp only [if_true]
      rw [ih (fun x hx => h x (List.mem_cons_of_mem t hx))]

/-- Sequential resolution restricted to the succeeding terms produces
exactly the non-error rows of the per-term worker results. -/
theorem seq_on_ok_terms (env : Env) : ∀ (ts : List String),
    get_artists env (ts.filter (fun t => rowOk env t))
      = .ok ((ts.map (mp_fetch_one env)).filter (fun r => r.err.isNone)) := by
  intro ts
  induction ts with
  | nil => rfl
  | cons t ts ih =>
      rw [List.filter_cons, List.map_cons, List.filter_cons]
      cases hrf : rowFor env t with
      | ok r =>
          have hok : rowOk env t = true := by unfold rowOk; rw [hrf]
          have hrow := mp_fetch_one_ok env t r hrf
          have herr : r.err = none := (rowFor_ok_fields env t r hrf).2
          rw [hok, hrow]
          simp only [if_true, herr, Option.isNone_none]
          simp only [get_artists]
          rw [hrf]
          simp only [Bind.bind, Except.bind]
          rw [ih]
          rfl
      | error e =>
          have hok : rowOk env t = false := by unfold rowOk; rw [hrf]
          have hrow := mp_fetch_one_error env t e hrf
          rw [hok, hrow]
          simp only [Bool.false_eq_true, if_false, Option.isNone_some]
          exact ih

/-- When every term resolves, the sequential batch is exactly the per-term
worker results. -/
theorem seq_all_ok (env : Env) : ∀ (ts : List String),
    (∀ t, t ∈ ts → ∃ r, rowFor env t = .ok r) →
    get_artists env ts = .ok (ts.map (mp_fetch_one env)) := by
  intro ts
  induction ts with
  | nil => intro _; rfl
  | cons t ts ih =>
      intro h
      obtain ⟨r, hr⟩ := h t (List.mem_cons_self t ts)
      simp only [get_artists, List.map_cons]
      rw [hr]
      simp only [Bind.bind, Except.bind]
      rw [ih (fun x hx => h x (List.mem_cons_of_mem t hx))]
      rw [mp_fetch_one_ok env t r hr]
      rfl

/-- C3 (amended: each query equal to its own stripped form, since the
parallel path strips its inputs and the sequential path does not): without
failures the parallel output is a permutation of the sequential rows; in
general the parallel output's non-error rows are a permutation of the
sequential rows over the succeeding terms. -/
theorem mp_matches_sequential (env : Env) (search_terms : List String) (arrival : List Nat)
    (_hne : search_terms ≠ [])
    (htrim : ∀ t, t ∈ search_terms → strip t = t ∧ t ≠ "")
    (harr : arrival.Perm (List.range search_terms.length)) :
    ((∀ t, t ∈ search_terms → ∃ r, rowFor env t = .ok r) →
      ∃ rows, get_artists env search_terms = .ok rows ∧
        (get_artists_mp env search_terms arrival).Perm rows)
    ∧ (∃ rows,
        get_artists env (search_terms.filter (fun t => rowOk env t)) = .ok rows ∧
          ((get_artists_mp env search_terms arrival).filter
              (fun r => r.err.isNone)).Perm rows) := by
  have hsub := submittedTerms_eq_self search_terms htrim
  have harr' : arrival.Perm (List.range (submittedTerms search_terms).length) := by
    rw [hsub]; exact harr
  have hperm := get_artists_mp_perm env search_terms arrival harr'
  rw [hsub] at hperm
  constructor
  · intro hok
    exact ⟨search_terms.map (mp_fetch_one env), seq_all_ok env search_terms hok, hperm⟩
  · refine ⟨(search_terms.map (mp_fetch_one env)).filter (fun r => r.err.isNone),
      seq_on_ok_terms env search_terms, ?_⟩
    exact List.Perm.filter _ hperm

theorem mp_matches_sequential_witness :
    ((∀ t, t ∈ (["a", "b"] : List String) → ∃ r, rowFor envDetail t = .ok r) →
      ∃ rows, get_artists envDetail ["a", "b"] = .ok rows ∧
        (get_artists_mp envDetail ["a", "b"] [1, 0]).Perm rows)
    ∧ (∃ rows,
        get_artists envDetail ((["a", "b"] : List String).filter
            (fun t => rowOk envDetail t)) = .ok rows ∧
          ((get_artists_mp envDetail ["a", "b"] [1, 0]).filter
              (fun r => r.err.isNone)).Perm rows) :=
  mp_matches_sequential envDetail ["a", "b"] [1, 0] (by simp) (by decide) (by decide)

/-- C3 counterexample to the claim as stated: for the non-blank query
`" a"` (which resolves without failure), the parallel path strips the term
before resolving while the sequential path does not, so the two row
multisets differ already in their `search_term` field. -/
theorem mp_matches_sequential_counterexample :
    (" a" : String) ≠ "" ∧ strip " a" ≠ "" ∧
    rowFor envEmpty " a" = .ok ⟨" a", JVal.null, JVal.null, JVal.null, none⟩ ∧
    get_artists envEmpty [" a"] = .ok [⟨" a", JVal.null, JVal.null, JVal.null, none⟩] ∧
    get_artists_mp envEmpty [" a"] [0] = [⟨"a", JVal.null, JVal.null, JVal.null, none⟩] ∧
    ¬ (get_artists_mp envEmpty [" a"] [0]).Perm
        [⟨" a", JVal.null, JVal.null, JVal.null, none⟩] := by
  refine ⟨by decide, by decide, by rfl, by rfl, by rfl, ?_⟩
  intro hperm
  have hmem : (⟨"a", JVal.null, JVal.null, JVal.null, none⟩ : Row)
      ∈ [(⟨" a", JVal.null, JVal.null, JVal.null, none⟩ : Row)] := by
    refine (hperm.mem_iff).mp ?_
    rw [show get_artists_mp envEmpty [" a"] [0]
        = [⟨"a", JVal.null, JVal.null, JVal.null, none⟩] from rfl]
    exact List.mem_singleton_self _
  rw [List.mem_singleton] at hmem
  have : ("a" : String) = " a" := congrArg Row.search_term hmem
  exact absurd this (by decide)

theorem lex_cons_iff (a b : Char) (as bs : List Char) :
    List.Lex (· < ·) (a :: as) (b :: bs) ↔
      a < b ∨ a = b ∧ List.Lex (· < ·) as bs := by
  constructor
  · intro h
    cases h with
    | rel h => exact Or.inl h
    | cons h => exact Or.inr ⟨rfl, h⟩
  · intro h
    rcases h with h | ⟨rfl, h⟩
    · exact List.Lex.rel h
    · exact List.Lex.cons h

theorem lexLe_iff_not_lex : ∀ (l l' : List Char),
    lexLe l l' = true ↔ ¬ List.Lex (· < ·) l' l := by
  intro l
  induction l with
  | nil =>
      intro l'
      constructor
      · intro _; exact List.Lex.not_nil_right _ _
      · intro _; rfl
  | cons a as ih =>
      intro l'
      cases l' with
      | nil =>
          constructor
          · intro h
            exact absurd h (by simp [lexLe])
          · intro h
            exact absurd List.Lex.nil h
      | cons b bs =>
          simp only [lexLe]
          rcases lt_trichotomy a b with hab | rfl | hab
          · rw [if_pos hab]
            simp only [true_iff]
            intro hlex
            rw [lex_cons_iff] at hlex
            rcases hlex with hc | ⟨hc, -⟩
            · exact absurd hab (not_lt_of_lt hc)
            · subst hc
              exact absurd hab (lt_irrefl _)
          · rw [if_neg (lt_irrefl a), if_neg (lt_irrefl a)]
            rw [ih bs]
            constructor
            · intro hn hlex
              rw [lex_cons_iff] at hlex
              rcases hlex with hc | ⟨-, hc⟩
              · exact absurd hc (lt_irrefl a)
              · exact hn hc
            · intro hn hlex
              exact hn (List.Lex.cons hlex)
          · rw [if_neg (not_lt_of_lt hab), if_pos hab]
            constructor
            · intro hfe
              exact absurd hfe (by simp)
            · intro hn
              exact absurd (List.Lex.rel hab) hn

/-- The executable comparator agrees with the string order. -/
theorem strLe_iff (a b : String) : strLe a b = true ↔ a ≤ b := by
  rw [String.le_iff_toList_le]
  rw [← not_lt]
  have hlt : (b.toList < a.toList) ↔ List.Lex (· < ·) b.toList a.toList :=
    Eq.to_iff rfl
  rw [hlt]
  exact lexLe_iff_not_lex a.data b.data

theorem sortedInsert_perm (x : String) : ∀ (l : List String),
    (sortedInsert x l).Perm (x :: l) := by
  intro l
  induction l with
  | nil => exact List.Perm.refl _
  | cons y ys ih =>
      simp only [sortedInsert]
      by_cases h : strLe x y = true
      · rw [if_pos h]
      · rw [if_neg h]
        exact (ih.cons y).trans (List.Perm.swap x y ys)

theorem sortedInsert_sorted (x : String) : ∀ (l : List String),
    List.Sorted (· ≤ ·) l → List.Sorted (· ≤ ·) (sortedInsert x l) := by
  intro l
  induction l with
  | nil => intro _; exact List.sorted_singleton x
  | cons y ys ih =>
      intro hs
      rw [List.sorted_cons] at hs
      obtain ⟨hy, hys⟩ := hs
      simp only [sortedInsert]
      by_cases h : strLe x y = true
      · rw [if_pos h]
        have hxy : x ≤ y := (strLe_iff x y).mp h
        rw [List.sorted_cons]
        refine ⟨?_, List.sorted_cons.mpr ⟨hy, hys⟩⟩
        intro b hb
        rcases List.mem_cons.mp hb with rfl | hb
        · exact hxy
        · exact le_trans hxy (hy b hb)
      · rw [if_neg h]
        have hyx : y ≤ x := by
          have : ¬ x ≤ y := fun hc => h ((strLe_iff x y).mpr hc)
          exact le_of_not_le this
        rw [List.sorted_cons]
        refine ⟨?_, ih hys⟩
        intro b hb
        have hb' : b ∈ x :: ys := (sortedInsert_perm x ys).mem_iff.mp hb
        rcases List.mem_cons.mp hb' with rfl | hb'
        · exact hyx
        · exact hy b hb'

theorem pySorted_perm : ∀ (l : List String), (pySorted l).Perm l := by
  intro l
  induction l with
  | nil => exact List.Perm.refl _
  | cons x xs ih =>
      simp only [pySorted]
      exact (sortedInsert_perm x (pySorted xs)).trans (ih.cons x)

theorem pySorted_sorted : ∀ (l : List String), List.Sorted (· ≤ ·) (pySorted l) := by
  intro l
  induction l with
  | nil => exact List.sorted_nil
  | cons x xs ih => exact sortedInsert_sorted x (pySorted xs) ih

theorem insertName_nodup (names : List String) (s : String)
    (h : names.Nodup) : (insertName names s).Nodup := by
  unfold insertName
  by_cases h1 : s = ""
  · rw [if_pos h1]; exact h
  · rw [if_neg h1]
    by_cases h2 : s ∈ names
    · rw [if_pos h2]; exact h
    · rw [if_neg h2]
      rw [show names ++ [s] = names.concat s from (List.concat_eq_append names s).symm]
      exact List.Nodup.concat h2 h

theorem processHits_nodup : ∀ (l : List JVal) (names : List String),
    names.Nodup → (processHits l names).1.Nodup := by
  intro l
  induction l with
  | nil => intro names h; exact h
  | cons hd tl ih =>
      intro names h
      simp only [processHits]
      cases hitName hd with
      | error e => exact h
      | ok s => exact ih (insertName names s) (insertName_nodup names s h)

theorem pageBody_nodup (env : Env) (seed : String) (page perPage : Nat)
    (names ns : List String) (h : names.Nodup)
    (hb : pageBody env seed page perPage names = .errored ns ∨
          pageBody env seed page perPage names = .done ns) : ns.Nodup := by
  unfold pageBody at hb
  rcases hpg : pyGet env (Req.search seed (some (page, perPage))) with e | data
  · simp only [hpg, PageOutcome.errored.injEq] at hb
    rcases hb with rfl | hb
    · exact h
    · exact absurd hb (by simp)
  · simp only [hpg] at hb
    rcases hrf : response_field data "hits" (JVal.arr []) with e | hits₀
    · simp only [hrf, PageOutcome.errored.injEq] at hb
      rcases hb with rfl | hb
      · exact h
      · exact absurd hb (by simp)
    · simp only [hrf] at hb
      by_cases ht : truthy (pyOr hits₀ (JVal.arr [])) = false
      · rw [if_pos ht] at hb
        rcases hb with hb | hb
        · exact absurd hb (by simp)
        · exact absurd hb (by simp)
      · rw [if_neg ht] at hb
        cases hpy : pyOr hits₀ (JVal.arr []) with
        | arr l =>
            simp only [hpy] at hb
            rcases hph : processHits l names with ⟨ns', flag⟩
            have hnd : ns'.Nodup := by
              have := processHits_nodup l names h
              rw [hph] at this
              exact this
            rw [hph] at hb
            cases flag with
            | true =>
                simp only [PageOutcome.errored.injEq] at hb
                rcases hb with rfl | hb
                · exact hnd
                · exact absurd hb (by simp)
            | false =>
                simp only [PageOutcome.done.injEq] at hb
                rcases hb with hb | rfl
                · exact absurd hb (by simp)
                · exact hnd
        | null =>
            simp only [hpy, PageOutcome.errored.injEq] at hb
            rcases hb with rfl | hb
            · exact h
            · exact absurd hb (by simp)
        | bool b =>
            simp only [hpy, PageOutcome.errored.injEq] at hb
            rcases hb with rfl | hb
            · exact h
            · exact absurd hb (by simp)
        | num n =>
            simp only [hpy, PageOutcome.errored.injEq] at hb
            rcases hb with rfl | hb
            · exact h
            · exact absurd hb (by simp)
        | str s =>
            simp only [hpy, PageOutcome.errored.injEq] at hb
            rcases hb with rfl | hb
            · exact h
            · exact absurd hb (by simp)
        | obj fs =>
            simp only [hpy, PageOutcome.errored.injEq] at hb
            rcases hb with rfl | hb
            · exact h
            · exact absurd hb (by simp)

theorem pageLoopT_nodup (env : Env) (seed : String) (perPage : Nat) :
    ∀ (fuel page : Nat) (names : List String), names.Nodup →
      (pageLoopT env seed perPage fuel page names).2.Nodup := by
  intro fuel
  induction fuel with
  | zero => intro page names h; exact h
  | succ n ih =>
      intro page names h
      simp only [pageLoopT]
      cases hb : pageBody env seed page perPage names with
      | noHits => exact h
      | errored ns =>
          exact ih (page + 1) ns (pageBody_nodup env seed page perPage names ns h (Or.inl hb))
      | done ns =>
          exact ih (page + 1) ns (pageBody_nodup env seed page perPage names ns h (Or.inr hb))

theorem seedLoopT_nodup (env : Env) (target perPage maxPages : Nat) :
    ∀ (seeds : List String) (names : List String), names.Nodup →
      (seedLoopT env target perPage maxPages seeds names).2.Nodup := by
  intro seeds
  induction seeds with
  | nil => intro names h; exact h
  | cons s rest ih =>
      intro names h
      simp only [seedLoopT]
      by_cases hstop : target ≤ (pageLoopT env s perPage maxPages 1 names).2.length
      · rw [if_pos hstop]
        exact pageLoopT_nodup env s perPage maxPages 1 names h
      · rw [if_neg hstop]
        exact ih _ (pageLoopT_nodup env s perPage maxPages 1 names h)

/-- C6: the output of `collect_artist_names` has no duplicate names and is
sorted ascending in (code-point) lexicographic order. -/
theorem collect_artist_names_sorted_nodup (env : Env) (seeds : List String)
    (target perPage maxPages : Nat) :
    (collect_artist_names env seeds target perPage maxPages).Nodup ∧
      List.Sorted (· ≤ ·) (collect_artist_names env seeds target perPage maxPages) := by
  unfold collect_artist_names
  constructor
  · exact (pySorted_perm _).nodup_iff.mpr
      (seedLoopT_nodup env target perPage maxPages seeds [] List.nodup_nil)
  · exact pySorted_sorted _

/-- C7: once the distinct-name count has reached the target when a seed's
pagination completes, the seed loop stops: its result (names and issued
requests alike) is that of the completed seed alone, independent of every
later seed. -/
theorem seed_loop_stops_at_target (env : Env) (target perPage maxPages : Nat)
    (s : String) (rest : List String) (names : List String)
    (h : target ≤ (pageLoopT env s perPage maxPages 1 names).2.length) :
    seedLoopT env target perPage maxPages (s :: rest) names
      = pageLoopT env s perPage maxPages 1 names := by
  simp only [seedLoopT]
  rw [if_pos h]

theorem seed_loop_stops_at_target_witness :
    seedLoopT envOnePage 1 50 2 ["a", "b"] []
      = pageLoopT envOnePage "a" 50 2 1 [] :=
  seed_loop_stops_at_target envOnePage 1 50 2 "a" ["b"] [] (by decide)

/-- C8 (amended: names collected from the page before the exception are
kept): a swallowed per-page exception makes the loop proceed to the next
page of the same seed with the names accumulated so far, up to the
max-pages bound; nothing propagates (the loop is total). -/
theorem page_error_continues_same_seed (env : Env) (seed : String)
    (page perPage fuel : Nat) (names ns : List String)
    (h : pageBody env seed page perPage names = .errored ns) :
    pageLoopT env seed perPage (fuel + 1) page names
      = (Req.search seed (some (page, perPage))
            :: (pageLoopT env seed perPage fuel (page + 1) ns).1,
         (pageLoopT env seed perPage fuel (page + 1) ns).2) := by
  simp only [pageLoopT]
  rw [h]

theorem page_error_continues_same_seed_witness :
    pageLoopT envErrPage1 "a" 50 3 1 []
      = (Req.search "a" (some (1, 50))
            :: (pageLoopT envErrPage1 "a" 50 2 2 []).1,
         (pageLoopT envErrPage1 "a" 50 2 2 []).2) :=
  page_error_continues_same_seed envErrPage1 "a" 1 50 2 [] [] (by rfl)

/-- C8 counterexample to "that page's results are skipped": on a page whose
processing raises part-way, the names collected before the exception are
retained (the dict is mutated in place), and indeed reach the final output. -/
theorem page_error_skips_results_counterexample :
    pageBody envBadPage "a" 1 50 [] = .errored ["G"] ∧
      collect_artist_names envBadPage ["a"] 5 50 3 = ["G"] :=
  ⟨rfl, rfl⟩

theorem splitNl_ne_nil : ∀ (cs : List Char), splitNl cs ≠ [] := by
  intro cs
  induction cs with
  | nil => simp [splitNl]
  | cons c rest ih =>
      simp only [splitNl]
      by_cases h : c = '\n'
      · rw [if_pos h]; simp
      · rw [if_neg h]
        cases hs : splitNl rest with
        | nil => simp
        | cons g gs => simp

theorem splitNl_append (rest : List Char) : ∀ (xs : List Char), ('\n' : Char) ∉ xs →
    splitNl (xs ++ '\n' :: rest) = xs :: splitNl rest := by
  intro xs
  induction xs with
  | nil =>
      intro _
      simp [splitNl]
  | cons c cs ih =>
      intro h
      have hc : c ≠ '\n' := fun hc => h (by rw [hc]; exact List.mem_cons_self _ _)
      have hcs : ('\n' : Char) ∉ cs := fun hm => h (List.mem_cons_of_mem c hm)
      simp only [List.cons_append, splitNl, List.append_eq]
      rw [if_neg hc, ih hcs]

/-- `save_list` then a newline-delimited read yields the items back,
provided none contains a newline. -/
theorem read_lines_save_list : ∀ (items : List String),
    (∀ x, x ∈ items → okCell x) → read_lines (save_list items) = items := by
  intro items
  induction items with
  | nil => intro _; rfl
  | cons x xs ih =>
      intro h
      have hx : ('\n' : Char) ∉ x.data := h x (List.mem_cons_self x xs)
      have hdata : (save_list (x :: xs)).data
          = x.data ++ '\n' :: (save_list xs).data := by
        show (x ++ "\n" ++ save_list xs).data = _
        rw [String.data_append, String.data_append, List.append_assoc]
        rfl
      unfold read_lines
      rw [hdata, splitNl_append _ x.data hx]
      rw [List.map_cons]
      rw [List.dropLast_cons_of_ne_nil]
      · have h2 : ((splitNl (save_list xs).data).map (fun cs => String.mk cs)).dropLast = xs :=
          ih (fun y hy => h y (List.mem_cons_of_mem x hy))
        rw [h2]
      · intro hc
        exact splitNl_ne_nil (save_list xs).data (List.map_eq_nil_iff.mp hc)

theorem parseCsvAux_plain (rest : List Char) (out : List (List Char)) :
    ∀ (cs acc : List Char), (',' : Char) ∉ cs → ('"' : Char) ∉ cs →
      parseCsvAux (cs ++ rest) .raw acc out
        = parseCsvAux rest .raw (cs.reverse ++ acc) out := by
  intro cs
  induction cs with
  | nil => intro acc _ _; rfl
  | cons c cs ih =>
      intro acc hc hq
      have h1 : c ≠ ',' := fun h => hc (by rw [h]; exact List.mem_cons_self _ _)
      have h2 : c ≠ '"' := fun h => hq (by rw [h]; exact List.mem_cons_self _ _)
      simp only [List.cons_append, parseCsvAux, List.append_eq]
      rw [if_neg h1, if_neg h2]
      rw [ih (c :: acc) (fun hm => hc (List.mem_cons_of_mem c hm))
        (fun hm => hq (List.mem_cons_of_mem c hm))]
      rw [List.reverse_cons, List.append_assoc]
      rfl

theorem parseCsvAux_quoted (rest : List Char) (out : List (List Char)) :
    ∀ (cs acc : List Char),
      parseCsvAux (csvEscape cs ++ '"' :: rest) .inq acc out
        = parseCsvAux rest .postq (cs.reverse ++ acc) out := by
  intro cs
  induction cs with
  | nil =>
      intro acc
      simp only [csvEscape, List.nil_append, parseCsvAux]
      simp
  | cons c cs ih =>
      intro acc
      by_cases h : c = '"'
      · subst h
        simp only [csvEscape, if_pos rfl, List.cons_append, parseCsvAux, List.append_eq]
        simp only [if_true, ite_true, reduceIte]
        rw [ih ('"' :: acc)]
        rw [List.reverse_cons, List.append_assoc]
        rfl
      · simp only [csvEscape, if_neg h, List.cons_append, parseCsvAux, List.append_eq]
        rw [ih (c :: acc)]
        rw [List.reverse_cons, List.append_assoc]
        rfl

theorem csvNeedsQuote_false_not_mem (s : String) (h : csvNeedsQuote s = false) :
    (',' : Char) ∉ s.data ∧ ('"' : Char) ∉ s.data := by
  unfold csvNeedsQuote at h
  rw [List.any_eq_false] at h
  constructor
  · intro hm
    have := h ',' hm
    simp at this
  · intro hm
    have := h '"' hm
    simp at this

theorem parse_field_comma (c : String) (rest : List Char) (out : List (List Char)) :
    parseCsvAux ((csvField c).data ++ ',' :: rest) .raw [] out
      = parseCsvAux rest .raw [] (c.data :: out) := by
  unfold csvField
  by_cases hq : csvNeedsQuote c = true
  · rw [if_pos hq]
    have hdata : (String.mk ('"' :: (csvEscape c.data ++ ['"']))).data
        = '"' :: (csvEscape c.data ++ ['"']) := rfl
    rw [hdata]
    simp only [List.cons_append, parseCsvAux, List.append_eq]
    rw [if_neg (show ('"' : Char) = ',' -> False by decide)]
    rw [if_true]
    rw [List.append_assoc, List.singleton_append]
    rw [parseCsvAux_quoted]
    simp only [parseCsvAux]
    rw [if_neg (show (',' : Char) = '"' -> False by decide)]
    rw [if_true]
    rw [List.append_nil, List.reverse_reverse]
  · rw [if_neg hq]
    obtain ⟨hc, hq'⟩ := csvNeedsQuote_false_not_mem c (by
      cases hval : csvNeedsQuote c with
      | true => exact absurd hval hq
      | false => rfl)
    rw [parseCsvAux_plain _ _ c.data [] hc hq']
    simp only [parseCsvAux]
    rw [if_true]
    rw [List.append_nil, List.reverse_reverse]

theorem parse_field_end (c : String) (out : List (List Char)) :
    parseCsvAux ((csvField c).data) .raw [] out = (c.data :: out).reverse := by
  unfold csvField
  by_cases hq : csvNeedsQuote c = true
  · rw [if_pos hq]
    have hdata : (String.mk ('"' :: (csvEscape c.data ++ ['"']))).data
        = '"' :: (csvEscape c.data ++ ['"']) := rfl
    rw [hdata]
    simp only [parseCsvAux, List.append_eq]
    rw [if_neg (show ('"' : Char) = ',' -> False by decide)]
    rw [if_true]
    rw [parseCsvAux_quoted]
    simp only [parseCsvAux]
    rw [List.append_nil, List.reverse_reverse]
  · rw [if_neg hq]
    obtain ⟨hc, hq'⟩ := csvNeedsQuote_false_not_mem c (by
      cases hval : csvNeedsQuote c with
      | true => exact absurd hval hq
      | false => rfl)
    have h0 : (c.data : List Char) = c.data ++ [] := by rw [List.append_nil]
    rw [h0, parseCsvAux_plain _ _ c.data [] hc hq']
    simp only [parseCsvAux]
    rw [List.append_nil, List.append_nil, List.reverse_reverse]

theorem parse_csvLine_cells : ∀ (cells : List String) (c : String) (out : List (List Char)),
    parseCsvAux (csvLine (c :: cells)).data .raw [] out
      = out.reverse ++ (c :: cells).map String.data := by
  intro cells
  induction cells with
  | nil =>
      intro c out
      show parseCsvAux (csvField c).data .raw [] out = _
      rw [parse_field_end c out]
      rw [List.reverse_cons]
      rfl
  | cons c' cells ih =>
      intro c out
      have hdata : (csvLine (c :: c' :: cells)).data
          = (csvField c).data ++ ',' :: (csvLine (c' :: cells)).data := by
        show (csvField c ++ "," ++ csvLine (c' :: cells)).data = _
        rw [String.data_append, String.data_append, List.append_assoc]
        rfl
      rw [hdata, parse_field_comma c _ out]
      rw [ih c' (c.data :: out)]
      rw [List.reverse_cons, List.append_assoc]
      rfl

theorem map_mk_data : ∀ (l : List String), (l.map String.data).map String.mk = l := by
  intro l
  induction l with
  | nil => rfl
  | cons x xs ih =>
      simp only [List.map_cons, ih]

theorem parseCsvLine_csvLine (cells : List String) (hne : cells ≠ []) :
    parseCsvLine (csvLine cells) = cells := by
  cases cells with
  | nil => exact absurd rfl hne
  | cons c cs =>
      unfold parseCsvLine
      rw [parse_csvLine_cells cs c []]
      rw [List.reverse_nil, List.nil_append]
      exact map_mk_data (c :: cs)

theorem mem_csvEscape : ∀ (cs : List Char) (c : Char),
    c ∈ csvEscape cs → c ∈ cs ∨ c = '"' := by
  intro cs
  induction cs with
  | nil => intro c h; exact absurd h (List.not_mem_nil c)
  | cons a as ih =>
      intro c h
      by_cases ha : a = '"'
      · subst ha
        simp only [csvEscape, if_pos rfl] at h
        rcases List.mem_cons.mp h with rfl | h
        · exact Or.inr rfl
        · rcases List.mem_cons.mp h with rfl | h
          · exact Or.inr rfl
          · rcases ih c h with h | h
            · exact Or.inl (List.mem_cons_of_mem _ h)
            · exact Or.inr h
      · simp only [csvEscape, if_neg ha] at h
        rcases List.mem_cons.mp h with rfl | h
        · exact Or.inl (List.mem_cons_self _ _)
        · rcases ih c h with h | h
          · exact Or.inl (List.mem_cons_of_mem _ h)
          · exact Or.inr h

theorem csvField_okCell (s : String) (h : okCell s) : okCell (csvField s) := by
  unfold csvField
  by_cases hq : csvNeedsQuote s = true
  · rw [if_pos hq]
    intro hm
    have hm' : ('\n' : Char) ∈ ('"' :: (csvEscape s.data ++ ['"'])) := hm
    rcases List.mem_cons.mp hm' with hc | hm'
    · exact absurd hc (by decide)
    · rcases List.mem_append.mp hm' with hm' | hm'
      · rcases mem_csvEscape s.data '\n' hm' with hm' | hm'
        · exact h hm'
        · exact absurd hm' (by decide)
      · have hc := List.mem_singleton.mp hm'
        exact absurd hc (by decide)
  · rw [if_neg hq]
    exact h

theorem csvLine_okCell : ∀ (cells : List String),
    (∀ x, x ∈ cells → okCell x) → okCell (csvLine cells) := by
  intro cells
  induction cells with
  | nil => intro _; intro hm; exact absurd hm (List.not_mem_nil _)
  | cons c cs ih =>
      intro hok
      cases cs with
      | nil => exact csvField_okCell c (hok c (List.mem_cons_self c []))
      | cons c' cs' =>
          intro hm
          have hdata : (csvLine (c :: c' :: cs')).data
              = (csvField c).data ++ ',' :: (csvLine (c' :: cs')).data := by
            show (csvField c ++ "," ++ csvLine (c' :: cs')).data = _
            rw [String.data_append, String.data_append, List.append_assoc]
            rfl
          rw [hdata] at hm
          rcases List.mem_append.mp hm with hm | hm
          · exact csvField_okCell c (hok c (List.mem_cons_self c _)) hm
          · rcases List.mem_cons.mp hm with hc | hm
            · exact absurd hc (by decide)
            · exact ih (fun x hx => hok x (List.mem_cons_of_mem c hx)) hm

/-- `save_df` then a line-based delimited read reproduces header and rows,
provided no cell contains a newline (commas and quotes are quoted and
unquoted faithfully). -/
theorem read_df_save_df (header : List String) (rows : List (List String))
    (hh : header ≠ []) (hr : ∀ r, r ∈ rows → r ≠ [])
    (hok : ∀ x, x ∈ header → okCell x)
    (hok2 : ∀ r, r ∈ rows → ∀ x, x ∈ r → okCell x) :
    read_df (save_df header rows) = some (header, rows) := by
  unfold save_df read_df
  have hlines : read_lines (save_list (csvLine header :: rows.map csvLine))
      = csvLine header :: rows.map csvLine := by
    refine read_lines_save_list _ ?_
    intro x hx
    rcases List.mem_cons.mp hx with rfl | hx
    · exact csvLine_okCell header hok
    · obtain ⟨r, hrmem, rfl⟩ := List.mem_map.mp hx
      exact csvLine_okCell r (hok2 r hrmem)
  rw [hlines]
  show some (parseCsvLine (csvLine header), (rows.map csvLine).map parseCsvLine)
    = some (header, rows)
  rw [parseCsvLine_csvLine header hh]
  have hrows : (rows.map csvLine).map parseCsvLine = rows := by
    rw [List.map_map]
    have hcong : ∀ r ∈ rows, (parseCsvLine ∘ csvLine) r = id r := by
      intro r hrmem
      exact parseCsvLine_csvLine r (hr r hrmem)
    rw [List.map_congr_left hcong, List.map_id]
  rw [hrows]

/-- C9 (amended: no written name and no table cell may contain a newline
character, since the artifacts are newline-delimited): `save_list` followed
by a newline-delimited read yields the same ordered names, and `save_df`
followed by a delimited read reproduces the same header and rows (commas
and quote characters in cells survive via the CSV quoting). -/
theorem save_roundtrip (items header : List String) (rows : List (List String))
    (hitems : ∀ x, x ∈ items → okCell x)
    (hh : header ≠ []) (hr : ∀ r, r ∈ rows → r ≠ [])
    (hok : ∀ x, x ∈ header → okCell x)
    (hok2 : ∀ r, r ∈ rows → ∀ x, x ∈ r → okCell x) :
    read_lines (save_list items) = items ∧
      read_df (save_df header rows) = some (header, rows) :=
  ⟨read_lines_save_list items hitems, read_df_save_df header rows hh hr hok hok2⟩

theorem save_roundtrip_witness :
    read_lines (save_list ["Seal", "U2"]) = ["Seal", "U2"] ∧
      read_df (save_df ["search_term", "artist_name", "artist_id", "followers_count"]
          [["Rihanna", "Rihanna", "7", "3"], ["a,b", "say \"hi\"", "", ""]])
        = some (["search_term", "artist_name", "artist_id", "followers_count"],
            [["Rihanna", "Rihanna", "7", "3"], ["a,b", "say \"hi\"", "", ""]]) :=
  save_roundtrip ["Seal", "U2"]
    ["search_term", "artist_name", "artist_id", "followers_count"]
    [["Rihanna", "Rihanna", "7", "3"], ["a,b", "say \"hi\"", "", ""]]
    (by decide) (by decide) (by decide) (by decide) (by decide)

/-- C9 counterexample to the unconditional claim: a name or cell containing
a newline does not survive the newline-delimited round trip. -/
theorem save_roundtrip_counterexample :
    read_lines (save_list ["a\nb"]) ≠ ["a\nb"] ∧
      read_df (save_df ["h"] [["a\nb"]]) ≠ some (["h"], [["a\nb"]]) := by
  constructor
  · decide
  · decide

end Apputil
